import Mathlib

/-!
Verification of the TOON encoder in `src/rag_techniques/utils.py`
(`json_to_toon`, `convert_json_to_toon` and their helpers).

The Python value universe handled by the encoder (results of `json.loads`)
is embedded as the closed inductive type `Toon.Value`.  Python numbers are
modelled by their integer fragment (`Int`, rendered by `str` exactly as
`Int.repr`); machine floats are outside this embedding.  Python exceptions
(`KeyError`/`TypeError` from `item[c]`, `json.loads` parse failures) are
modelled by `Except Toon.PyError`.
-/

namespace Toon

/-- JSON-like value model: the shapes `json.loads` produces and
`json_to_toon` consumes (dict fields and list elements keep order). -/
inductive Value where
  | null
  | bool (b : Bool)
  | num (n : Int)
  | str (s : String)
  | obj (fields : List (String × Value))
  | arr (elems : List Value)

/-- Python runtime failures that the embedded code can raise. -/
inductive PyError where
  | parseError (msg : String)
  | keyError (key : String)
  | typeError (msg : String)
deriving Repr, DecidableEq

/-- Python `" " * indent`. -/
def pad_str (indent : Nat) : String :=
  String.mk (List.replicate indent ' ')

/-- Python `f"{name}" if name else ""` on an optional string. -/
def name_part (name : Option String) : String :=
  name.getD ""

/-- Python `sep.join(xs)`. -/
def join_sep (sep : String) : List String → String
  | [] => ""
  | [x] => x
  | x :: y :: rest => x ++ sep ++ join_sep sep (y :: rest)

/-- Python `str.isspace` on its Latin-1 range (space, tab, newline,
vertical tab, form feed, carriage return, the file/group/record/unit
separators, next line and no-break space; the remaining Unicode space
characters are elided — every claim only involves these). -/
def py_is_space (c : Char) : Bool :=
  c = ' ' || c = '\t' || c = '\n' || c = '\r' || c = '\x0b' || c = '\x0c' ||
  c = '\x1c' || c = '\x1d' || c = '\x1e' || c = '\x1f' || c = '\x85' || c = '\xa0'

/-- Source `_is_primitive`: `x is None or isinstance(x, (str, int, float, bool))`. -/
def is_primitive : Value → Bool
  | .null => true
  | .bool _ => true
  | .num _ => true
  | .str _ => true
  | .obj _ => false
  | .arr _ => false

/-- Python `isinstance(el, dict)`. -/
def is_dict : Value → Bool
  | .obj _ => true
  | _ => false

/-- Python `list(el.keys())`; only applied to dicts in the source
(guarded by `isinstance` checks), so non-dicts map to `[]`. -/
def dict_keys : Value → List String
  | .obj fields => fields.map Prod.fst
  | _ => []

/-- The ordered key sequence of a value, defined exactly when it is a dict. -/
def obj_keys? : Value → Option (List String)
  | .obj fields => some (fields.map Prod.fst)
  | _ => none

/-- Source `_all_dicts_with_same_keys`: `(True, keys)` iff the list is
non-empty, every element is a dict and every element's ordered key list
equals the first element's. -/
def all_dicts_with_same_keys (lst : List Value) : Bool × List String :=
  if lst.isEmpty then (false, [])
  else if !(lst.all is_dict) then (false, [])
  else if lst.all (fun el => dict_keys el == dict_keys (lst.headD .null)) then
    (true, dict_keys (lst.headD .null))
  else (false, [])

/-- Source `_needs_quote`: quote when empty, leading/trailing whitespace,
or containing a comma, newline, carriage return, or double quote. -/
def needs_quote (s : String) : Bool :=
  if s.data.isEmpty then true
  else if py_is_space (s.data.headD ' ') || py_is_space (s.data.getLastD ' ') then true
  else if s.data.contains ',' || s.data.contains '\n' || s.data.contains '\r' || s.data.contains '"' then true
  else false

/-- Source `_quote_str`: escape embedded double quotes with a backslash and
wrap the result in double quotes (`s.replace('"', '\\"')` then `f'"{s2}"'`). -/
def quote_str (s : String) : String :=
  "\"" ++ String.mk (s.data.flatMap (fun c => if c = '"' then ['\\', c] else [c])) ++ "\""

/-- One character of Python `json.dumps` string escaping: double quote,
backslash and ASCII control characters are escaped (`ensure_ascii`
re-encoding of non-ASCII characters is elided; all claims are ASCII). -/
def json_escape_char (c : Char) : List Char :=
  if c = '"' then ['\\', '"']
  else if c = '\\' then ['\\', '\\']
  else if c = '\n' then ['\\', 'n']
  else if c = '\r' then ['\\', 'r']
  else if c = '\t' then ['\\', 't']
  else if c = '\x08' then ['\\', 'b']
  else if c = '\x0c' then ['\\', 'f']
  else if c.toNat < 32 then
    let hex := fun (n : Nat) => if n < 10 then Char.ofNat ('0'.toNat + n) else Char.ofNat ('a'.toNat + n - 10)
    ['\\', 'u', '0', '0', hex (c.toNat / 16), hex (c.toNat % 16)]
  else [c]

/-- Python `json.dumps` escaping of a whole string body. -/
def json_escape (s : String) : String :=
  String.mk (s.data.flatMap json_escape_char)

mutual

/-- Python `json.dumps(v, separators=(',', ':'))`: compact JSON text. -/
def json_dumps : Value → String
  | .null => "null"
  | .bool b => if b then "true" else "false"
  | .num n => toString n
  | .str s => "\"" ++ json_escape s ++ "\""
  | .obj fields => "\x7b" ++ dumps_fields fields ++ "\x7d"
  | .arr elems => "[" ++ dumps_elems elems ++ "]"

/-- Comma-separated `"key":value` members of a compact JSON object. -/
def dumps_fields : List (String × Value) → String
  | [] => ""
  | [(k, v)] => "\"" ++ json_escape k ++ "\":" ++ json_dumps v
  | (k, v) :: p :: rest =>
      "\"" ++ json_escape k ++ "\":" ++ json_dumps v ++ "," ++ dumps_fields (p :: rest)

/-- Comma-separated elements of a compact JSON array. -/
def dumps_elems : List Value → String
  | [] => ""
  | [v] => json_dumps v
  | v :: w :: rest => json_dumps v ++ "," ++ dumps_elems (w :: rest)

end

/-- Source `_format_value`: null/bool/number pass through (numbers via
Python `str`), strings are quoted iff `_needs_quote`, and dict/list cells
fall back to quoted compact JSON. -/
def format_value : Value → String
  | .null => "null"
  | .bool b => if b then "true" else "false"
  | .num n => toString n
  | .str s => if needs_quote s then quote_str s else s
  | v => quote_str (json_dumps v)

/-- Python `item[c]` on a dict: the value at key `c`, `KeyError` when the
key is absent, `TypeError` when `item` is not a dict. -/
def get_item (item : Value) (c : String) : Except PyError Value :=
  match item with
  | .obj fields =>
      match fields.find? (fun p => p.1 == c) with
      | some p => .ok p.2
      | none => .error (.keyError c)
  | _ => .error (.typeError "value is not subscriptable")

/-- Source `[_format_value(item[c]) for c in cols]`. -/
def row_vals (item : Value) : List String → Except PyError (List String)
  | [] => .ok []
  | c :: cols => do
      let v ← get_item item c
      let rest ← row_vals item cols
      pure (format_value v :: rest)

/-- Source tabular row loop: one line `f"{pad}{','.join(row_vals)}"` per element. -/
def tabular_rows (pad : String) (cols : List String) : List Value → Except PyError (List String)
  | [] => .ok []
  | item :: rest => do
      let vals ← row_vals item cols
      let tail ← tabular_rows pad cols rest
      pure ((pad ++ join_sep "," vals) :: tail)

mutual

/-- Source `json_to_toon(data, name, indent)`: dispatch on the shape of
`data`; dict fields and list elements are rendered into `out_lines` chunks
and joined with newlines (a nested block is appended as a single chunk,
exactly as in the source).  The unreachable Python fallback for values
outside dict/list/primitive has no representation in the closed model. -/
def json_to_toon (data : Value) (name : Option String) (indent : Nat) : Except PyError String :=
  let pad := pad_str indent
  match data with
  | .obj fields => do
      let out ← dict_lines fields indent
      pure (join_sep "\n" out)
  | .arr lst =>
      if lst.isEmpty then
        .ok (pad ++ name_part name ++ "[0]:")
      else
        match all_dicts_with_same_keys lst with
        | (true, cols) => do
            let header := "\x7b" ++ join_sep "," cols ++ "\x7d"
            let head :=
              if !(name_part name).isEmpty then
                pad ++ name_part name ++ "[" ++ toString lst.length ++ "]" ++ header ++ ":"
              else
                pad ++ "[" ++ toString lst.length ++ "]" ++ header ++ ":"
            let rows ← tabular_rows pad cols lst
            pure (join_sep "\n" (head :: rows))
        | (false, _) =>
            if lst.all is_primitive then
              let vals := join_sep "," (lst.map format_value)
              if !(name_part name).isEmpty then
                .ok (pad ++ name_part name ++ "[" ++ toString lst.length ++ "]: " ++ vals)
              else
                .ok (pad ++ "[" ++ toString lst.length ++ "]: " ++ vals)
            else do
              let body ← mixed_lines lst indent
              pure (join_sep "\n" ((pad ++ name_part name ++ "[" ++ toString lst.length ++ "]:") :: body))
  | prim =>
      if !(name_part name).isEmpty then
        .ok (pad ++ name_part name ++ ": " ++ format_value prim)
      else
        .ok (pad ++ format_value prim)

/-- The `out_lines` chunks of the source's dict loop, one group per field
in insertion order (arrays are handled inline, exactly as in the source;
only a dict field value recurses into `json_to_toon`). -/
def dict_lines (fields : List (String × Value)) (indent : Nat) : Except PyError (List String) :=
  match fields with
  | [] => .ok []
  | (k, v) :: rest =>
    match v with
    | .obj g => do
        -- the source appends `json_to_toon(v, None, indent + 2)` here; on a
        -- dict that call is the join of its field chunks (see
        -- `json_to_toon_obj_eq` below), inlined for structural recursion
        let sub ← dict_lines g (indent + 2)
        let tail ← dict_lines rest indent
        pure ((pad_str indent ++ k ++ ":") :: join_sep "\n" sub :: tail)
    | .arr lst =>
        if lst.isEmpty then do
          let tail ← dict_lines rest indent
          pure ((pad_str indent ++ k ++ "[0]:") :: tail)
        else
          match all_dicts_with_same_keys lst with
          | (true, cols) => do
              let head := pad_str indent ++ k ++ "[" ++ toString lst.length ++ "]" ++
                "\x7b" ++ join_sep "," cols ++ "\x7d" ++ ":"
              let rows ← tabular_rows (pad_str indent) cols lst
              let tail ← dict_lines rest indent
              pure ((head :: rows) ++ tail)
          | (false, _) =>
              if lst.all is_primitive then do
                let line := pad_str indent ++ k ++ "[" ++ toString lst.length ++ "]: " ++
                  join_sep "," (lst.map format_value)
                let tail ← dict_lines rest indent
                pure (line :: tail)
              else do
                let body ← mixed_lines lst indent
                let tail ← dict_lines rest indent
                pure (((pad_str indent ++ k ++ "[" ++ toString lst.length ++ "]:") :: body) ++ tail)
    | _ => do
        let tail ← dict_lines rest indent
        pure ((pad_str indent ++ k ++ ": " ++ format_value v) :: tail)

/-- The `out_lines` chunks of the source's mixed-array loop: a primitive
element becomes a single line at `indent + 2`, a complex element becomes
one chunk holding its recursive encoding at `indent + 2`. -/
def mixed_lines (lst : List Value) (indent : Nat) : Except PyError (List String) :=
  match lst with
  | [] => .ok []
  | el :: rest => do
      let here ←
        if is_primitive el then
          pure (pad_str (indent + 2) ++ format_value el)
        else
          json_to_toon el none (indent + 2)
      let tail ← mixed_lines rest indent
      pure (here :: tail)

end

/-- JSON insignificant whitespace skipping. -/
def skip_ws : List Char → List Char
  | [] => []
  | c :: rest =>
      if c = ' ' || c = '\t' || c = '\n' || c = '\r' then skip_ws rest
      else c :: rest

/-- Decimal digit test. -/
def is_digit (c : Char) : Bool :=
  '0' ≤ c && c ≤ '9'

/-- Hexadecimal digit value, if any (code-point arithmetic: digits are
0x30-0x39, lower case letters 0x61-0x66, upper case 0x41-0x46). -/
def hex_val? (c : Char) : Option Nat :=
  let p := c.toNat
  if 0x30 ≤ p ∧ p ≤ 0x39 then some (p - 0x30)
  else if 0x61 ≤ p ∧ p ≤ 0x66 then some (p - 0x61 + 10)
  else if 0x41 ≤ p ∧ p ≤ 0x46 then some (p - 0x41 + 10)
  else none

/-- Modelled from the spec: the body of a JSON string literal as parsed by
`json.loads` (the standard library parser the source calls, not present in
`src/`), up to the closing quote; standard escapes are handled,
`\uXXXX` becomes the corresponding character (surrogate pairing elided). -/
def parse_string_chars : List Char → Except String (List Char × List Char)
  | [] => .error "unterminated string"
  | c :: rest =>
      if c = '"' then .ok ([], rest)
      else if c = '\\' then
        match rest with
        | [] => .error "unterminated escape"
        | e :: rest2 =>
            if e = '"' || e = '\\' || e = '/' then do
              let (tail, rem) ← parse_string_chars rest2
              pure (e :: tail, rem)
            else if e = 'n' then do
              let (tail, rem) ← parse_string_chars rest2
              pure ('\n' :: tail, rem)
            else if e = 'r' then do
              let (tail, rem) ← parse_string_chars rest2
              pure ('\r' :: tail, rem)
            else if e = 't' then do
              let (tail, rem) ← parse_string_chars rest2
              pure ('\t' :: tail, rem)
            else if e = 'b' then do
              let (tail, rem) ← parse_string_chars rest2
              pure ('\x08' :: tail, rem)
            else if e = 'f' then do
              let (tail, rem) ← parse_string_chars rest2
              pure ('\x0c' :: tail, rem)
            else if e = 'u' then
              match rest2 with
              | h1 :: h2 :: h3 :: h4 :: rest3 =>
                  match hex_val? h1, hex_val? h2, hex_val? h3, hex_val? h4 with
                  | some a, some b, some c, some d => do
                      let (tail, rem) ← parse_string_chars rest3
                      pure (Char.ofNat (((a * 16 + b) * 16 + c) * 16 + d) :: tail, rem)
                  | _, _, _, _ => .error "invalid unicode escape"
              | _ => .error "invalid unicode escape"
            else .error "invalid escape"
      else if c.toNat < 32 then .error "invalid control character"
      else do
        let (tail, rem) ← parse_string_chars rest
        pure (c :: tail, rem)

/-- Leading decimal digits and the remaining input. -/
def take_digits : List Char → List Char × List Char
  | [] => ([], [])
  | c :: rest =>
      if is_digit c then
        let (ds, rem) := take_digits rest
        (c :: ds, rem)
      else ([], c :: rest)

/-- Numeric value of a digit string, most significant digit first. -/
def digits_to_nat : Nat → List Char → Nat
  | acc, [] => acc
  | acc, c :: rest => digits_to_nat (acc * 10 + (c.toNat - 0x30)) rest

/-- Modelled from the spec: a JSON integer numeral (`json.loads` number
grammar restricted to the integer fragment of the value model; float
literals are outside this embedding). -/
def parse_number (cs : List Char) : Except String (Value × List Char) :=
  let (neg, cs1) :=
    match cs with
    | '-' :: rest => (true, rest)
    | _ => (false, cs)
  match take_digits cs1 with
  | ([], _) => .error "expecting value"
  | ('0' :: _ :: _, _) => .error "leading zero"
  | (ds, rem) =>
      match rem with
      | '.' :: _ => .error "float literal outside the integer model"
      | 'e' :: _ => .error "float literal outside the integer model"
      | 'E' :: _ => .error "float literal outside the integer model"
      | _ =>
          let n : Int := Int.ofNat (digits_to_nat 0 ds)
          .ok (.num (if neg then -n else n), rem)

mutual

/-- Modelled from the spec: the recursive JSON value grammar accepted by
`json.loads` (null, true, false, integer numerals, strings, arrays,
objects); `fuel` bounds the nesting depth and exceeds it on every actual
document since each nesting level consumes at least one character. -/
def parse_value (fuel : Nat) (cs : List Char) : Except String (Value × List Char) :=
  match fuel with
  | 0 => .error "nesting too deep"
  | fuel + 1 =>
      match skip_ws cs with
      | [] => .error "expecting value"
      | c :: rest =>
          if c = 'n' then
            match rest with
            | 'u' :: 'l' :: 'l' :: rem => .ok (.null, rem)
            | _ => .error "expecting value"
          else if c = 't' then
            match rest with
            | 'r' :: 'u' :: 'e' :: rem => .ok (.bool true, rem)
            | _ => .error "expecting value"
          else if c = 'f' then
            match rest with
            | 'a' :: 'l' :: 's' :: 'e' :: rem => .ok (.bool false, rem)
            | _ => .error "expecting value"
          else if c = '"' then do
            let (body, rem) ← parse_string_chars rest
            pure (.str (String.mk body), rem)
          else if c = '[' then
            match skip_ws rest with
            | ']' :: rem => .ok (.arr [], rem)
            | cs2 => do
                let (els, rem) ← parse_elements fuel cs2
                pure (.arr els, rem)
          else if c = '\x7b' then
            match skip_ws rest with
            | '\x7d' :: rem => .ok (.obj [], rem)
            | cs2 => do
                let (fields, rem) ← parse_members fuel cs2
                pure (.obj fields, rem)
          else if c = '-' || is_digit c then
            parse_number (c :: rest)
          else .error "expecting value"

/-- Comma-separated array elements up to the closing bracket. -/
def parse_elements (fuel : Nat) (cs : List Char) : Except String (List Value × List Char) :=
  match fuel with
  | 0 => .error "nesting too deep"
  | fuel + 1 => do
      let (v, rem) ← parse_value fuel cs
      match skip_ws rem with
      | ',' :: rem2 => do
          let (vs, rem3) ← parse_elements fuel rem2
          pure (v :: vs, rem3)
      | ']' :: rem2 => pure ([v], rem2)
      | _ => .error "expecting a comma or closing bracket"

/-- Comma-separated `"key": value` object members up to the closing brace. -/
def parse_members (fuel : Nat) (cs : List Char) : Except String (List (String × Value) × List Char) :=
  match fuel with
  | 0 => .error "nesting too deep"
  | fuel + 1 =>
      match skip_ws cs with
      | '"' :: rest => do
          let (key, rem) ← parse_string_chars rest
          match skip_ws rem with
          | ':' :: rem2 => do
              let (v, rem3) ← parse_value fuel rem2
              match skip_ws rem3 with
              | ',' :: rem4 => do
                  let (fields, rem5) ← parse_members fuel rem4
                  pure ((String.mk key, v) :: fields, rem5)
              | '\x7d' :: rem4 => pure ([(String.mk key, v)], rem4)
              | _ => .error "expecting a comma or closing brace"
          | _ => .error "expecting a colon"
      | _ => .error "expecting a property name"

end

/-- Modelled from the spec: `json.loads` on a whole document — parse one
value and require only whitespace after it. -/
def json_loads (s : String) : Except String Value := do
  let (v, rem) ← parse_value (s.length + 1) s.data
  match skip_ws rem with
  | [] => pure v
  | _ => .error "extra data"

/-- Source `convert_json_to_toon`: a string argument is parsed as JSON
first (`json.loads`), anything else is encoded directly. -/
def convert_json_to_toon (obj_or_json : Value) : Except PyError String :=
  match obj_or_json with
  | .str s =>
      match json_loads s with
      | .error msg => .error (.parseError msg)
      | .ok parsed => json_to_toon parsed none 0
  | v => json_to_toon v none 0

/-! ### Spec-side definitions (statements of the claims) -/

/-- The produced text ends with a newline character. -/
def ends_with_newline (s : String) : Bool :=
  s.data.getLast? == some '\n'

/-- Spec-side reading of a tabular cell: "the element's value for column
`c`" (well-defined when the element is an object whose keys are unique and
include `c`). -/
def cell_value (item : Value) (c : String) : Value :=
  match item with
  | .obj fields => ((fields.find? (fun p => p.1 == c)).map Prod.snd).getD .null
  | _ => .null

/-- Spec-side reading of one emitted tabular row for `item`: its values
for the columns, each rendered by `format_value`, joined by commas, behind
the row padding. -/
def spec_row (pad : String) (cols : List String) (item : Value) : String :=
  pad ++ join_sep "," (cols.map (fun c => format_value (cell_value item c)))

mutual

/-- No empty object occurs anywhere in the value. -/
def no_empty_obj : Value → Bool
  | .obj fields => !fields.isEmpty && no_empty_obj_fields fields
  | .arr elems => no_empty_obj_elems elems
  | _ => true

/-- `no_empty_obj` on every field value. -/
def no_empty_obj_fields : List (String × Value) → Bool
  | [] => true
  | (_, v) :: rest => no_empty_obj v && no_empty_obj_fields rest

/-- `no_empty_obj` on every element. -/
def no_empty_obj_elems : List Value → Bool
  | [] => true
  | v :: rest => no_empty_obj v && no_empty_obj_elems rest

end

/-- The end-to-end example value of the spec:
`{"users":[{"id":1,"name":"Alice"},{"id":2,"name":"Bob"}],"tags":["x","y"],"meta":{"count":2}}`
as produced by `json.loads`. -/
def example_value : Value :=
  .obj [("users", .arr [.obj [("id", .num 1), ("name", .str "Alice")],
                        .obj [("id", .num 2), ("name", .str "Bob")]]),
        ("tags", .arr [.str "x", .str "y"]),
        ("meta", .obj [("count", .num 2)])]

/-- The end-to-end example JSON text of the spec. -/
def example_json : String :=
  "\x7b\"users\":[\x7b\"id\":1,\"name\":\"Alice\"\x7d,\x7b\"id\":2,\"name\":\"Bob\"\x7d],\"tags\":[\"x\",\"y\"],\"meta\":\x7b\"count\":2\x7d\x7d"

/-- The six expected output lines of the end-to-end example. -/
def example_lines : List String :=
  ["users[2]\x7bid,name\x7d:", "1,Alice", "2,Bob", "tags[2]: x,y", "meta:", "  count: 2"]

/-! ### Helper lemmas: chunks, joining, character facts -/

/-- A well-behaved output chunk: non-empty and not ending in a newline. -/
def chunk_good (s : String) : Prop :=
  s.data ≠ [] ∧ s.data.getLast? ≠ some '\n'

theorem chunk_good_append (a t : String) (h : chunk_good t) : chunk_good (a ++ t) := by
  obtain ⟨h1, h2⟩ := h
  constructor
  · simp [String.data_append]
    intro _
    exact h1
  · rw [String.data_append, List.getLast?_append]
    obtain ⟨c, hc⟩ := Option.isSome_iff_exists.mp (List.getLast?_isSome.mpr h1)
    rw [hc]
    simpa [hc] using h2

theorem join_sep_good (sep : String) (L : List String)
    (hall : ∀ c ∈ L, chunk_good c) (hne : L ≠ []) : chunk_good (join_sep sep L) := by
  induction L with
  | nil => exact absurd rfl hne
  | cons x L ih =>
      cases L with
      | nil => exact hall x (by simp) |>.imp id id |> fun h => by simpa [join_sep] using h
      | cons y rest =>
          have hj : chunk_good (join_sep sep (y :: rest)) :=
            ih (fun c hc => hall c (List.mem_cons_of_mem _ hc)) (by simp)
          have : chunk_good (x ++ sep ++ join_sep sep (y :: rest)) := by
            rw [String.append_assoc]
            exact chunk_good_append _ _ (chunk_good_append _ _ hj)
          simpa [join_sep] using this

theorem digit_char_ne_newline : ∀ m, m < 10 → Nat.digitChar m ≠ '\n' := by decide

theorem toDigitsCore_suffix (fuel : Nat) : ∀ (n : Nat) (acc : List Char),
    ∃ ds, Nat.toDigitsCore 10 fuel n acc = ds ++ acc ∧
      ∀ c ∈ ds, ∃ m, m < 10 ∧ c = Nat.digitChar m := by
  induction fuel with
  | zero => intro n acc; exact ⟨[], by simp [Nat.toDigitsCore], by simp⟩
  | succ fuel ih =>
      intro n acc
      by_cases h : n / 10 = 0
      · refine ⟨[Nat.digitChar (n % 10)], by simp [Nat.toDigitsCore, h], ?_⟩
        intro c hc
        simp at hc
        exact ⟨n % 10, Nat.mod_lt _ (by norm_num), hc⟩
      · obtain ⟨ds, hds, hmem⟩ := ih (n / 10) (Nat.digitChar (n % 10) :: acc)
        refine ⟨ds ++ [Nat.digitChar (n % 10)], ?_, ?_⟩
        · simp [Nat.toDigitsCore, h, hds]
        · intro c hc
          rcases List.mem_append.mp hc with h1 | h1
          · exact hmem c h1
          · simp at h1
            exact ⟨n % 10, Nat.mod_lt _ (by norm_num), h1⟩

theorem nat_repr_good (n : Nat) : chunk_good (Nat.repr n) := by
  have key : ∃ l, (Nat.toDigits 10 n) = l ∧ l ≠ [] ∧
      ∀ c ∈ l, ∃ m, m < 10 ∧ c = Nat.digitChar m := by
    unfold Nat.toDigits
    by_cases h : n / 10 = 0
    · exact ⟨[Nat.digitChar (n % 10)], by simp [Nat.toDigitsCore, h], by simp,
        fun c hc => by simp at hc; exact ⟨n % 10, Nat.mod_lt _ (by norm_num), hc⟩⟩
    · obtain ⟨ds, hds, hmem⟩ := toDigitsCore_suffix n (n / 10) [Nat.digitChar (n % 10)]
      refine ⟨ds ++ [Nat.digitChar (n % 10)], by simp [Nat.toDigitsCore, h, hds], by simp, ?_⟩
      intro c hc
      rcases List.mem_append.mp hc with h1 | h1
      · exact hmem c h1
      · simp at h1
        exact ⟨n % 10, Nat.mod_lt _ (by norm_num), h1⟩
  obtain ⟨l, hl, hne, hdig⟩ := key
  have hdata : (Nat.repr n).data = l := by
    simp [Nat.repr, hl, List.asString]
  constructor
  · rw [hdata]; exact hne
  · rw [hdata]
    obtain ⟨c, hc⟩ := Option.isSome_iff_exists.mp (List.getLast?_isSome.mpr hne)
    rw [hc]
    have hcl : c ∈ l := by
      obtain ⟨hx, hceq⟩ := List.mem_getLast?_eq_getLast (l := l) (x := c) (by simp [hc])
      exact hceq ▸ List.getLast_mem hx
    obtain ⟨m, hm, hcm⟩ := hdig c hcl
    simp [hcm]
    exact digit_char_ne_newline m hm

theorem int_repr_good (n : Int) : chunk_good (Int.repr n) := by
  cases n with
  | ofNat m => simpa [Int.repr] using nat_repr_good m
  | negSucc m =>
      show chunk_good ("-" ++ Nat.repr (m + 1))
      exact chunk_good_append _ _ (nat_repr_good (m + 1))

theorem toString_int (n : Int) : toString n = Int.repr n := rfl

theorem string_eq_empty_iff (s : String) : s = "" ↔ s.data = [] := by
  rw [String.ext_iff]

theorem quote_str_good (s : String) : chunk_good (quote_str s) := by
  unfold quote_str
  rw [String.append_assoc]
  apply chunk_good_append
  constructor
  · simp [String.data_append]
  · rw [String.data_append]
    have : ("\"" : String).data = ['"'] := rfl
    rw [this, List.getLast?_append, List.getLast?_singleton]
    simp

theorem needs_quote_false_good (s : String) (h : needs_quote s = false) : chunk_good s := by
  unfold needs_quote at h
  split_ifs at h with h1 h2 h3
  constructor
  · simpa using h1
  · intro hlast
    have hd : s.data ≠ [] := by simpa using h1
    have : s.data.getLastD ' ' = '\n' := by
      rw [List.getLastD_eq_getLast?, hlast]; rfl
    apply h2
    rw [this]
    simp [py_is_space]

theorem format_value_good (v : Value) : chunk_good (format_value v) := by
  cases v with
  | null => exact ⟨by decide, by decide⟩
  | bool b => cases b <;> exact ⟨by decide, by decide⟩
  | num n => rw [format_value, toString_int]; exact int_repr_good n
  | str s =>
      rw [format_value]
      by_cases h : needs_quote s
      · simp [h]; exact quote_str_good s
      · simp [h]; exact needs_quote_false_good s (by simpa using h)
  | obj fields => exact quote_str_good _
  | arr elems => exact quote_str_good _

/-! ### Helper lemmas: schema detection and tabular rows -/

theorem obj_keys_eq_some_iff (el : Value) (cols : List String) :
    obj_keys? el = some cols ↔ ∃ fields, el = .obj fields ∧ fields.map Prod.fst = cols := by
  cases el <;> simp [obj_keys?]

theorem is_dict_of_obj_keys (el : Value) (cols : List String)
    (h : obj_keys? el = some cols) : is_dict el = true := by
  cases el <;> simp_all [obj_keys?, is_dict]

theorem dict_keys_of_obj_keys (el : Value) (cols : List String)
    (h : obj_keys? el = some cols) : dict_keys el = cols := by
  cases el <;> simp_all [obj_keys?, dict_keys]

theorem all_dicts_true_iff (lst : List Value) (cols : List String) :
    all_dicts_with_same_keys lst = (true, cols) ↔
      (lst ≠ [] ∧ ∀ el ∈ lst, obj_keys? el = some cols) := by
  constructor
  · intro h
    unfold all_dicts_with_same_keys at h
    split_ifs at h with h1 h2 h3
    · exact absurd h (by simp)
    · exact absurd h (by simp)
    · have hcols : dict_keys (lst.headD .null) = cols := by
        simpa using h
      refine ⟨by simpa using h1, ?_⟩
      intro el hel
      have hd : is_dict el = true := by
        have h2' : lst.all is_dict = true := by simpa using h2
        simpa using List.all_eq_true.mp h2' el hel
      have hk : dict_keys el = dict_keys (lst.headD .null) := by
        simpa using List.all_eq_true.mp h3 el hel
      rw [hcols] at hk
      cases el with
      | obj fields => simp [obj_keys?, ← hk, dict_keys]
      | null => simp [is_dict] at hd
      | bool b => simp [is_dict] at hd
      | num n => simp [is_dict] at hd
      | str s => simp [is_dict] at hd
      | arr elems => simp [is_dict] at hd
    · exact absurd h (by simp)
  · rintro ⟨hne, hall⟩
    unfold all_dicts_with_same_keys
    obtain ⟨x, rest, rfl⟩ := List.exists_cons_of_ne_nil hne
    have hx := hall x (by simp)
    have hkeys : dict_keys x = cols := dict_keys_of_obj_keys _ _ hx
    rw [if_neg (by simp)]
    rw [if_neg ?hd]
    case hd =>
      simp only [Bool.not_eq_true', Bool.not_eq_false]
      exact List.all_eq_true.mpr fun el hel => is_dict_of_obj_keys el cols (hall el hel)
    simp only [List.headD_cons, hkeys]
    rw [if_pos]
    · exact List.all_eq_true.mpr fun el hel => by
        simp [dict_keys_of_obj_keys el cols (hall el hel)]

theorem all_dicts_shape (lst : List Value) :
    (∃ cols, all_dicts_with_same_keys lst = (true, cols)) ∨
      all_dicts_with_same_keys lst = (false, []) := by
  unfold all_dicts_with_same_keys
  split_ifs <;> simp

theorem get_item_found (fields : List (String × Value)) (c : String)
    (h : c ∈ fields.map Prod.fst) :
    get_item (.obj fields) c = .ok (cell_value (.obj fields) c) := by
  have : ∃ p ∈ fields, p.1 == c := by
    obtain ⟨p, hp, hpc⟩ := List.mem_map.mp h
    exact ⟨p, hp, by simp [hpc]⟩
  obtain ⟨p, hfind⟩ := Option.isSome_iff_exists.mp (List.find?_isSome.mpr this)
  simp [get_item, cell_value, hfind]

theorem row_vals_ok (fields : List (String × Value)) (cols : List String)
    (h : ∀ c ∈ cols, c ∈ fields.map Prod.fst) :
    row_vals (.obj fields) cols =
      .ok (cols.map (fun c => format_value (cell_value (.obj fields) c))) := by
  induction cols with
  | nil => simp [row_vals]
  | cons c cols ih =>
      have hc := get_item_found fields c (h c (by simp))
      have ht := ih (fun x hx => h x (List.mem_cons_of_mem _ hx))
      simp [row_vals, hc, ht]
      rfl

theorem tabular_rows_ok (pad : String) (cols : List String) (lst : List Value)
    (h : ∀ el ∈ lst, obj_keys? el = some cols) :
    tabular_rows pad cols lst = .ok (lst.map (spec_row pad cols)) := by
  induction lst with
  | nil => simp [tabular_rows]
  | cons item rest ih =>
      obtain ⟨fields, rfl, hkeys⟩ := (obj_keys_eq_some_iff _ _).mp (h item (by simp))
      have hr := row_vals_ok fields cols (fun c hc => hkeys ▸ hc)
      have ht := ih (fun el hel => h el (List.mem_cons_of_mem _ hel))
      simp [tabular_rows, hr, ht, spec_row]
      rfl

theorem spec_row_good (pad : String) (cols : List String) (item : Value)
    (hne : cols ≠ []) : chunk_good (spec_row pad cols item) := by
  unfold spec_row
  apply chunk_good_append
  apply join_sep_good
  · intro c hc
    obtain ⟨x, _, rfl⟩ := List.mem_map.mp hc
    exact format_value_good _
  · simpa using hne

/-! ### Helper lemmas: the encoder never raises -/

theorem ok_bind {E A B : Type} (a : A) (k : A → Except E B) :
    (Except.ok a >>= k) = k a := rfl

theorem err_bind {E A B : Type} (e : E) (k : A → Except E B) :
    ((Except.error e : Except E A) >>= k) = Except.error e := rfl

theorem pure_eq_ok {E A : Type} (a : A) : (pure a : Except E A) = Except.ok a := rfl

theorem json_to_toon_obj_eq (g : List (String × Value)) (name : Option String) (i : Nat) :
    json_to_toon (.obj g) name i = (dict_lines g i).map (join_sep "\n") := by
  cases h : dict_lines g i <;>
    simp [json_to_toon, h, Except.map, ok_bind, err_bind, pure_eq_ok]

/-- Faithfulness bridge: the inlined dict-field case of `dict_lines` is
exactly the source's `json_to_toon(v, None, indent + 2)` recursion. -/
theorem dict_lines_obj_field (k : String) (g rest : List (String × Value)) (i : Nat) :
    dict_lines ((k, .obj g) :: rest) i =
      (do
        let sub ← json_to_toon (.obj g) none (i + 2)
        let tail ← dict_lines rest i
        pure ((pad_str i ++ k ++ ":") :: sub :: tail)) := by
  rw [json_to_toon_obj_eq]
  cases h : dict_lines g (i + 2) <;> cases h2 : dict_lines rest i <;>
    simp [dict_lines, h, h2, Except.map, ok_bind, err_bind, pure_eq_ok]

theorem encoder_ok :
    ∀ (v : Value) (name : Option String) (i : Nat), ∃ s, json_to_toon v name i = .ok s := by
  apply json_to_toon.induct
    (fun v name i => ∃ s, json_to_toon v name i = .ok s)
    (fun lst i => ∃ L, mixed_lines lst i = .ok L)
    (fun fs i => ∃ L, dict_lines fs i = .ok L)
  · intro name i fields h
    obtain ⟨L, hL⟩ := h
    simp [json_to_toon, hL, ok_bind, pure_eq_ok]
  · intro name i lst hemp
    simp [json_to_toon, hemp]
  · intro name i lst hne cols hcols
    have hall := ((all_dicts_true_iff lst cols).mp hcols).2
    have hrows := tabular_rows_ok (pad_str i) cols lst hall
    cases hn : (name_part name).isEmpty <;>
      simp [json_to_toon, hne, hcols, hrows, hn, ok_bind, pure_eq_ok]
  · intro name i lst hne snd hdicts hprim hn
    simp [json_to_toon, hne, hdicts, hprim, hn, ok_bind, pure_eq_ok]
  · intro name i lst hne snd hdicts hprim hn
    simp [json_to_toon, hne, hdicts, hprim, hn, ok_bind, pure_eq_ok]
  · intro name i lst hne snd hdicts hprim h
    obtain ⟨L, hL⟩ := h
    simp [json_to_toon, hne, hdicts, hprim, hL, ok_bind, pure_eq_ok]
  · intro name i prim hobj harr hn
    cases prim with
    | obj fields => exact absurd rfl (hobj fields)
    | arr lst => exact absurd rfl (harr lst)
    | null => simp [json_to_toon, hn]
    | bool b => simp [json_to_toon, hn]
    | num n => simp [json_to_toon, hn]
    | str s => simp [json_to_toon, hn]
  · intro name i prim hobj harr hn
    cases prim with
    | obj fields => exact absurd rfl (hobj fields)
    | arr lst => exact absurd rfl (harr lst)
    | null => simp [json_to_toon, hn]
    | bool b => simp [json_to_toon, hn]
    | num n => simp [json_to_toon, hn]
    | str s => simp [json_to_toon, hn]
  · intro i
    exact ⟨[], rfl⟩
  · intro i k rest fields hf hr
    obtain ⟨Lf, hLf⟩ := hf
    obtain ⟨Lr, hLr⟩ := hr
    simp [dict_lines, hLf, hLr, ok_bind, pure_eq_ok]
  · intro i k rest lst hemp hr
    obtain ⟨Lr, hLr⟩ := hr
    simp [dict_lines, hemp, hLr, ok_bind, pure_eq_ok]
  · intro i k rest lst hne cols hcols hr
    obtain ⟨Lr, hLr⟩ := hr
    have hall := ((all_dicts_true_iff lst cols).mp hcols).2
    have hrows := tabular_rows_ok (pad_str i) cols lst hall
    simp [dict_lines, hne, hcols, hrows, hLr, ok_bind, pure_eq_ok]
  · intro i k rest lst hne snd hdicts hprim hr
    obtain ⟨Lr, hLr⟩ := hr
    simp [dict_lines, hne, hdicts, hprim, hLr, ok_bind, pure_eq_ok]
  · intro i k rest lst hne snd hdicts hprim hm hr
    obtain ⟨Lm, hLm⟩ := hm
    obtain ⟨Lr, hLr⟩ := hr
    simp [dict_lines, hne, hdicts, hprim, hLm, hLr, ok_bind, pure_eq_ok]
  · intro i k rest prim hobj harr hr
    obtain ⟨Lr, hLr⟩ := hr
    cases prim with
    | obj fields => exact absurd rfl (hobj fields)
    | arr lst => exact absurd rfl (harr lst)
    | null => simp [dict_lines, hLr, ok_bind, pure_eq_ok]
    | bool b => simp [dict_lines, hLr, ok_bind, pure_eq_ok]
    | num n => simp [dict_lines, hLr, ok_bind, pure_eq_ok]
    | str s => simp [dict_lines, hLr, ok_bind, pure_eq_ok]
  · intro i
    exact ⟨[], rfl⟩
  · intro i item rest hp hr
    obtain ⟨Lr, hLr⟩ := hr
    simp [mixed_lines, hp, hLr, ok_bind, pure_eq_ok]
  · intro i item rest hp hr hi
    obtain ⟨Lr, hLr⟩ := hr
    obtain ⟨s, hs⟩ := hi
    simp [mixed_lines, hp, hs, hLr, ok_bind, pure_eq_ok]

theorem dict_lines_ok (fs : List (String × Value)) (i : Nat) :
    ∃ L, dict_lines fs i = .ok L := by
  obtain ⟨s, hs⟩ := encoder_ok (.obj fs) none i
  rw [json_to_toon_obj_eq] at hs
  cases h : dict_lines fs i with
  | ok L => exact ⟨L, rfl⟩
  | error e => rw [h] at hs; exact absurd hs (by simp [Except.map])

theorem mixed_lines_ok (lst : List Value) (i : Nat) :
    ∃ L, mixed_lines lst i = .ok L := by
  induction lst with
  | nil => exact ⟨[], rfl⟩
  | cons el rest ih =>
      obtain ⟨L, hL⟩ := ih
      cases hp : is_primitive el
      · obtain ⟨s, hs⟩ := encoder_ok el none (i + 2)
        simp [mixed_lines, hp, hs, hL, ok_bind, pure_eq_ok]
      · simp [mixed_lines, hp, hL, ok_bind, pure_eq_ok]

/-! ### Helper lemmas: chunk goodness of the whole encoding -/

theorem no_empty_obj_fields_mem (fs : List (String × Value))
    (h : no_empty_obj_fields fs = true) : ∀ p ∈ fs, no_empty_obj p.2 = true := by
  induction fs with
  | nil => simp
  | cons p rest ih =>
      obtain ⟨k, v⟩ := p
      rw [no_empty_obj_fields, Bool.and_eq_true] at h
      intro q hq
      rcases List.mem_cons.mp hq with rfl | hq
      · exact h.1
      · exact ih h.2 q hq

theorem no_empty_obj_elems_mem (lst : List Value)
    (h : no_empty_obj_elems lst = true) : ∀ el ∈ lst, no_empty_obj el = true := by
  induction lst with
  | nil => simp
  | cons v rest ih =>
      rw [no_empty_obj_elems, Bool.and_eq_true] at h
      intro q hq
      rcases List.mem_cons.mp hq with rfl | hq
      · exact h.1
      · exact ih h.2 q hq

theorem cols_ne_nil_of_tabular (lst : List Value) (cols : List String)
    (hcols : all_dicts_with_same_keys lst = (true, cols))
    (hno : no_empty_obj_elems lst = true) : cols ≠ [] := by
  obtain ⟨hne, hall⟩ := (all_dicts_true_iff lst cols).mp hcols
  obtain ⟨x, rest, rfl⟩ := List.exists_cons_of_ne_nil hne
  obtain ⟨fields, hx, hkeys⟩ :=
    (obj_keys_eq_some_iff x cols).mp (hall x (List.mem_cons_self x rest))
  subst hx
  have hxe := no_empty_obj_elems_mem _ hno _ (List.mem_cons_self _ _)
  rw [no_empty_obj, Bool.and_eq_true] at hxe
  have hf : fields ≠ [] := by simpa using hxe.1
  intro hc
  rw [← hkeys] at hc
  exact hf (by simpa using hc)

theorem encoder_good :
    ∀ (v : Value) (name : Option String) (i : Nat), no_empty_obj v = true →
      ∃ s, json_to_toon v name i = .ok s ∧ chunk_good s := by
  apply json_to_toon.induct
    (fun v name i => no_empty_obj v = true →
      ∃ s, json_to_toon v name i = .ok s ∧ chunk_good s)
    (fun lst i => no_empty_obj_elems lst = true →
      ∃ L, mixed_lines lst i = .ok L ∧ ∀ c ∈ L, chunk_good c)
    (fun fs i => no_empty_obj_fields fs = true →
      ∃ L, dict_lines fs i = .ok L ∧ (∀ c ∈ L, chunk_good c) ∧ (fs ≠ [] → L ≠ []))
  · intro name i fields hM3 h
    rw [no_empty_obj, Bool.and_eq_true] at h
    obtain ⟨L, hL, hgood, hLne⟩ := hM3 h.2
    obtain ⟨s, hs⟩ := encoder_ok (.obj fields) name i
    refine ⟨s, hs, ?_⟩
    simp [json_to_toon, hL, ok_bind, pure_eq_ok] at hs
    subst hs
    exact join_sep_good _ _ hgood (hLne (by simpa using h.1))
  · intro name i lst hemp _
    obtain ⟨s, hs⟩ := encoder_ok (.arr lst) name i
    refine ⟨s, hs, ?_⟩
    simp [json_to_toon, hemp] at hs
    subst hs
    exact chunk_good_append _ "[0]:" ⟨by decide, by decide⟩
  · intro name i lst hne cols hcols h
    rw [no_empty_obj] at h
    have hall := ((all_dicts_true_iff lst cols).mp hcols).2
    have hrows := tabular_rows_ok (pad_str i) cols lst hall
    have hcne := cols_ne_nil_of_tabular lst cols hcols h
    obtain ⟨s, hs⟩ := encoder_ok (.arr lst) name i
    refine ⟨s, hs, ?_⟩
    cases hn : (name_part name).isEmpty
    · simp [json_to_toon, hne, hcols, hrows, hn, ok_bind, pure_eq_ok] at hs
      subst hs
      refine join_sep_good _ _ ?_ (by simp)
      intro c hc
      rcases List.mem_cons.mp hc with rfl | hc
      · exact chunk_good_append _ ":" ⟨by decide, by decide⟩
      · obtain ⟨item, _, rfl⟩ := List.mem_map.mp hc
        exact spec_row_good _ _ _ hcne
    · simp [json_to_toon, hne, hcols, hrows, hn, ok_bind, pure_eq_ok] at hs
      subst hs
      refine join_sep_good _ _ ?_ (by simp)
      intro c hc
      rcases List.mem_cons.mp hc with rfl | hc
      · exact chunk_good_append _ ":" ⟨by decide, by decide⟩
      · obtain ⟨item, _, rfl⟩ := List.mem_map.mp hc
        exact spec_row_good _ _ _ hcne
  · intro name i lst hne snd hdicts hprim hn _
    obtain ⟨s, hs⟩ := encoder_ok (.arr lst) name i
    refine ⟨s, hs, ?_⟩
    simp [json_to_toon, hne, hdicts, hprim, hn, ok_bind, pure_eq_ok] at hs
    subst hs
    apply chunk_good_append
    apply join_sep_good
    · intro c hc
      obtain ⟨el, _, rfl⟩ := List.mem_map.mp hc
      exact format_value_good el
    · simpa using hne
  · intro name i lst hne snd hdicts hprim hn _
    obtain ⟨s, hs⟩ := encoder_ok (.arr lst) name i
    refine ⟨s, hs, ?_⟩
    simp [json_to_toon, hne, hdicts, hprim, hn, ok_bind, pure_eq_ok] at hs
    subst hs
    apply chunk_good_append
    apply join_sep_good
    · intro c hc
      obtain ⟨el, _, rfl⟩ := List.mem_map.mp hc
      exact format_value_good el
    · simpa using hne
  · intro name i lst hne snd hdicts hprim hM2 h
    rw [no_empty_obj] at h
    obtain ⟨L, hL, hgood⟩ := hM2 h
    obtain ⟨s, hs⟩ := encoder_ok (.arr lst) name i
    refine ⟨s, hs, ?_⟩
    simp [json_to_toon, hne, hdicts, hprim, hL, ok_bind, pure_eq_ok] at hs
    subst hs
    refine join_sep_good _ _ ?_ (by simp)
    intro c hc
    rcases List.mem_cons.mp hc with rfl | hc
    · exact chunk_good_append _ "]:" ⟨by decide, by decide⟩
    · exact hgood c hc
  · intro name i prim hobj harr hn _
    obtain ⟨s, hs⟩ := encoder_ok prim name i
    refine ⟨s, hs, ?_⟩
    cases prim with
    | obj fields => exact absurd rfl (hobj fields)
    | arr lst => exact absurd rfl (harr lst)
    | null =>
        simp [json_to_toon, hn] at hs
        subst hs
        exact chunk_good_append _ _ (format_value_good .null)
    | bool b =>
        simp [json_to_toon, hn] at hs
        subst hs
        exact chunk_good_append _ _ (format_value_good (.bool b))
    | num n =>
        simp [json_to_toon, hn] at hs
        subst hs
        exact chunk_good_append _ _ (format_value_good (.num n))
    | str t =>
        simp [json_to_toon, hn] at hs
        subst hs
        exact chunk_good_append _ _ (format_value_good (.str t))
  · intro name i prim hobj harr hn _
    obtain ⟨s, hs⟩ := encoder_ok prim name i
    refine ⟨s, hs, ?_⟩
    cases prim with
    | obj fields => exact absurd rfl (hobj fields)
    | arr lst => exact absurd rfl (harr lst)
    | null =>
        simp [json_to_toon, hn] at hs
        subst hs
        exact chunk_good_append _ _ (format_value_good .null)
    | bool b =>
        simp [json_to_toon, hn] at hs
        subst hs
        exact chunk_good_append _ _ (format_value_good (.bool b))
    | num n =>
        simp [json_to_toon, hn] at hs
        subst hs
        exact chunk_good_append _ _ (format_value_good (.num n))
    | str t =>
        simp [json_to_toon, hn] at hs
        subst hs
        exact chunk_good_append _ _ (format_value_good (.str t))
  · intro i _
    exact ⟨[], rfl, by simp, by simp⟩
  · intro i k rest fields hMg hMr h
    rw [no_empty_obj_fields, Bool.and_eq_true] at h
    obtain ⟨hg, hr⟩ := h
    rw [no_empty_obj, Bool.and_eq_true] at hg
    obtain ⟨Lg, hLg, hgoodg, hneg⟩ := hMg hg.2
    obtain ⟨Lr, hLr, hgoodr, _⟩ := hMr hr
    obtain ⟨L, hL⟩ := dict_lines_ok ((k, .obj fields) :: rest) i
    refine ⟨L, hL, ?_, ?_⟩
    · simp [dict_lines, hLg, hLr, ok_bind, pure_eq_ok] at hL
      subst hL
      intro c hc
      rcases List.mem_cons.mp hc with rfl | hc
      · exact chunk_good_append _ ":" ⟨by decide, by decide⟩
      rcases List.mem_cons.mp hc with rfl | hc
      · exact join_sep_good _ _ hgoodg (hneg (by simpa using hg.1))
      · exact hgoodr c hc
    · simp [dict_lines, hLg, hLr, ok_bind, pure_eq_ok] at hL
      subst hL
      simp
  · intro i k rest lst hemp hMr h
    rw [no_empty_obj_fields, Bool.and_eq_true] at h
    obtain ⟨Lr, hLr, hgoodr, _⟩ := hMr h.2
    obtain ⟨L, hL⟩ := dict_lines_ok ((k, .arr lst) :: rest) i
    refine ⟨L, hL, ?_, ?_⟩
    · simp [dict_lines, hemp, hLr, ok_bind, pure_eq_ok] at hL
      subst hL
      intro c hc
      rcases List.mem_cons.mp hc with rfl | hc
      · exact chunk_good_append _ "[0]:" ⟨by decide, by decide⟩
      · exact hgoodr c hc
    · simp [dict_lines, hemp, hLr, ok_bind, pure_eq_ok] at hL
      subst hL
      simp
  · intro i k rest lst hne cols hcols hMr h
    rw [no_empty_obj_fields, Bool.and_eq_true] at h
    obtain ⟨hv, hr⟩ := h
    rw [no_empty_obj] at hv
    obtain ⟨Lr, hLr, hgoodr, _⟩ := hMr hr
    have hall := ((all_dicts_true_iff lst cols).mp hcols).2
    have hrows := tabular_rows_ok (pad_str i) cols lst hall
    have hcne := cols_ne_nil_of_tabular lst cols hcols hv
    obtain ⟨L, hL⟩ := dict_lines_ok ((k, .arr lst) :: rest) i
    refine ⟨L, hL, ?_, ?_⟩
    · simp [dict_lines, hne, hcols, hrows, hLr, ok_bind, pure_eq_ok] at hL
      subst hL
      intro c hc
      rcases List.mem_cons.mp hc with rfl | hc
      · exact chunk_good_append _ ":" ⟨by decide, by decide⟩
      rcases List.mem_append.mp hc with hc | hc
      · obtain ⟨item, _, rfl⟩ := List.mem_map.mp hc
        exact spec_row_good _ _ _ hcne
      · exact hgoodr c hc
    · simp [dict_lines, hne, hcols, hrows, hLr, ok_bind, pure_eq_ok] at hL
      subst hL
      simp
  · intro i k rest lst hne snd hdicts hprim hMr h
    rw [no_empty_obj_fields, Bool.and_eq_true] at h
    obtain ⟨Lr, hLr, hgoodr, _⟩ := hMr h.2
    obtain ⟨L, hL⟩ := dict_lines_ok ((k, .arr lst) :: rest) i
    refine ⟨L, hL, ?_, ?_⟩
    · simp [dict_lines, hne, hdicts, hprim, hLr, ok_bind, pure_eq_ok] at hL
      subst hL
      intro c hc
      rcases List.mem_cons.mp hc with rfl | hc
      · apply chunk_good_append
        apply join_sep_good
        · intro c hc
          obtain ⟨el, _, rfl⟩ := List.mem_map.mp hc
          exact format_value_good el
        · simpa using hne
      · exact hgoodr c hc
    · simp [dict_lines, hne, hdicts, hprim, hLr, ok_bind, pure_eq_ok] at hL
      subst hL
      simp
  · intro i k rest lst hne snd hdicts hprim hM2 hMr h
    rw [no_empty_obj_fields, Bool.and_eq_true] at h
    obtain ⟨hv, hr⟩ := h
    rw [no_empty_obj] at hv
    obtain ⟨Lm, hLm, hgoodm⟩ := hM2 hv
    obtain ⟨Lr, hLr, hgoodr, _⟩ := hMr hr
    obtain ⟨L, hL⟩ := dict_lines_ok ((k, .arr lst) :: rest) i
    refine ⟨L, hL, ?_, ?_⟩
    · simp [dict_lines, hne, hdicts, hprim, hLm, hLr, ok_bind, pure_eq_ok] at hL
      subst hL
      intro c hc
      rcases List.mem_cons.mp hc with rfl | hc
      · exact chunk_good_append _ "]:" ⟨by decide, by decide⟩
      rcases List.mem_append.mp hc with hc | hc
      · exact hgoodm c hc
      · exact hgoodr c hc
    · simp [dict_lines, hne, hdicts, hprim, hLm, hLr, ok_bind, pure_eq_ok] at hL
      subst hL
      simp
  · intro i k rest prim hobj harr hMr h
    rw [no_empty_obj_fields, Bool.and_eq_true] at h
    obtain ⟨Lr, hLr, hgoodr, _⟩ := hMr h.2
    obtain ⟨L, hL⟩ := dict_lines_ok ((k, prim) :: rest) i
    refine ⟨L, hL, ?_, ?_⟩
    · cases prim with
      | obj fields => exact absurd rfl (hobj fields)
      | arr lst => exact absurd rfl (harr lst)
      | null =>
          simp [dict_lines, hLr, ok_bind, pure_eq_ok] at hL
          subst hL
          intro c hc
          rcases List.mem_cons.mp hc with rfl | hc
          · exact chunk_good_append _ _ (format_value_good .null)
          · exact hgoodr c hc
      | bool b =>
          simp [dict_lines, hLr, ok_bind, pure_eq_ok] at hL
          subst hL
          intro c hc
          rcases List.mem_cons.mp hc with rfl | hc
          · exact chunk_good_append _ _ (format_value_good (.bool b))
          · exact hgoodr c hc
      | num n =>
          simp [dict_lines, hLr, ok_bind, pure_eq_ok] at hL
          subst hL
          intro c hc
          rcases List.mem_cons.mp hc with rfl | hc
          · exact chunk_good_append _ _ (format_value_good (.num n))
          · exact hgoodr c hc
      | str t =>
          simp [dict_lines, hLr, ok_bind, pure_eq_ok] at hL
          subst hL
          intro c hc
          rcases List.mem_cons.mp hc with rfl | hc
          · exact chunk_good_append _ _ (format_value_good (.str t))
          · exact hgoodr c hc
    · cases prim with
      | obj fields => exact absurd rfl (hobj fields)
      | arr lst => exact absurd rfl (harr lst)
      | null =>
          simp [dict_lines, hLr, ok_bind, pure_eq_ok] at hL
          subst hL
          simp
      | bool b =>
          simp [dict_lines, hLr, ok_bind, pure_eq_ok] at hL
          subst hL
          simp
      | num n =>
          simp [dict_lines, hLr, ok_bind, pure_eq_ok] at hL
          subst hL
          simp
      | str t =>
          simp [dict_lines, hLr, ok_bind, pure_eq_ok] at hL
          subst hL
          simp
  · intro i _
    exact ⟨[], rfl, by simp⟩
  · intro i item rest hp hMr h
    rw [no_empty_obj_elems, Bool.and_eq_true] at h
    obtain ⟨Lr, hLr, hgoodr⟩ := hMr h.2
    obtain ⟨L, hL⟩ := mixed_lines_ok (item :: rest) i
    refine ⟨L, hL, ?_⟩
    simp [mixed_lines, hp, hLr, ok_bind, pure_eq_ok] at hL
    subst hL
    intro c hc
    rcases List.mem_cons.mp hc with rfl | hc
    · exact chunk_good_append _ _ (format_value_good item)
    · exact hgoodr c hc
  · intro i item rest hp hMr hM1 h
    rw [no_empty_obj_elems, Bool.and_eq_true] at h
    obtain ⟨Lr, hLr, hgoodr⟩ := hMr h.2
    obtain ⟨s, hs, hgs⟩ := hM1 h.1
    obtain ⟨L, hL⟩ := mixed_lines_ok (item :: rest) i
    refine ⟨L, hL, ?_⟩
    simp [mixed_lines, hp, hs, hLr, ok_bind, pure_eq_ok] at hL
    subst hL
    intro c hc
    rcases List.mem_cons.mp hc with rfl | hc
    · exact hgs
    · exact hgoodr c hc

/-! ### Helper lemmas: per-field chunk groups (key order) -/

theorem dict_lines_groups (fields : List (String × Value)) (i : Nat) :
    ∃ groups : List (List String),
      dict_lines fields i = .ok groups.flatten ∧
      List.Forall₂ (fun kv grp => ∃ r t, grp = (pad_str i ++ kv.1 ++ r) :: t ∧
        (r.data.headD ' ' = ':' ∨ r.data.headD ' ' = '[')) fields groups := by
  induction fields with
  | nil => exact ⟨[], rfl, List.Forall₂.nil⟩
  | cons kv rest ih =>
      obtain ⟨groups, hG, hF⟩ := ih
      obtain ⟨k, v⟩ := kv
      cases v with
      | obj g =>
          obtain ⟨Lg, hLg⟩ := dict_lines_ok g (i + 2)
          refine ⟨[pad_str i ++ k ++ ":", join_sep "\n" Lg] :: groups, ?_, ?_⟩
          · simp [dict_lines, hLg, hG, ok_bind, pure_eq_ok]
          · exact List.Forall₂.cons ⟨":", _, rfl, Or.inl rfl⟩ hF
      | arr lst =>
          cases hemp : lst.isEmpty
          · rcases all_dicts_shape lst with ⟨cols, hc⟩ | hc
            · have hall := ((all_dicts_true_iff lst cols).mp hc).2
              have hrows := tabular_rows_ok (pad_str i) cols lst hall
              refine ⟨((pad_str i ++ k ++ "[" ++ toString lst.length ++ "]" ++
                  "\x7b" ++ join_sep "," cols ++ "\x7d" ++ ":") ::
                  lst.map (spec_row (pad_str i) cols)) :: groups, ?_, ?_⟩
              · simp [dict_lines, hemp, hc, hrows, hG, ok_bind, pure_eq_ok]
              · refine List.Forall₂.cons ⟨"[" ++ toString lst.length ++ "]" ++
                  "\x7b" ++ join_sep "," cols ++ "\x7d" ++ ":",
                  lst.map (spec_row (pad_str i) cols), ?_, ?_⟩ hF
                · simp [String.append_assoc]
                · exact Or.inr (by simp [String.data_append])
            · cases hprim : lst.all is_primitive
              · obtain ⟨Lm, hLm⟩ := mixed_lines_ok lst i
                refine ⟨((pad_str i ++ k ++ "[" ++ toString lst.length ++ "]:") :: Lm) ::
                  groups, ?_, ?_⟩
                · simp [dict_lines, hemp, hc, hprim, hLm, hG, ok_bind, pure_eq_ok]
                · refine List.Forall₂.cons ⟨"[" ++ toString lst.length ++ "]:", Lm, ?_, ?_⟩ hF
                  · simp [String.append_assoc]
                  · exact Or.inr (by simp [String.data_append])
              · refine ⟨[pad_str i ++ k ++ "[" ++ toString lst.length ++ "]: " ++
                  join_sep "," (lst.map format_value)] :: groups, ?_, ?_⟩
                · simp [dict_lines, hemp, hc, hprim, hG, ok_bind, pure_eq_ok]
                · refine List.Forall₂.cons ⟨"[" ++ toString lst.length ++ "]: " ++
                    join_sep "," (lst.map format_value), [], ?_, ?_⟩ hF
                  · simp [String.append_assoc]
                  · exact Or.inr (by simp [String.data_append])
          · refine ⟨[pad_str i ++ k ++ "[0]:"] :: groups, ?_, ?_⟩
            · simp [dict_lines, hemp, hG, ok_bind, pure_eq_ok]
            · exact List.Forall₂.cons ⟨"[0]:", _, rfl, Or.inr rfl⟩ hF
      | null =>
          refine ⟨[pad_str i ++ k ++ ": " ++ format_value .null] :: groups, ?_, ?_⟩
          · simp [dict_lines, hG, ok_bind, pure_eq_ok]
          · refine List.Forall₂.cons ⟨": " ++ format_value .null, [], ?_, ?_⟩ hF
            · simp [String.append_assoc]
            · exact Or.inl (by simp [String.data_append])
      | bool b =>
          refine ⟨[pad_str i ++ k ++ ": " ++ format_value (.bool b)] :: groups, ?_, ?_⟩
          · simp [dict_lines, hG, ok_bind, pure_eq_ok]
          · refine List.Forall₂.cons ⟨": " ++ format_value (.bool b), [], ?_, ?_⟩ hF
            · simp [String.append_assoc]
            · exact Or.inl (by simp [String.data_append])
      | num n =>
          refine ⟨[pad_str i ++ k ++ ": " ++ format_value (.num n)] :: groups, ?_, ?_⟩
          · simp [dict_lines, hG, ok_bind, pure_eq_ok]
          · refine List.Forall₂.cons ⟨": " ++ format_value (.num n), [], ?_, ?_⟩ hF
            · simp [String.append_assoc]
            · exact Or.inl (by simp [String.data_append])
      | str t =>
          refine ⟨[pad_str i ++ k ++ ": " ++ format_value (.str t)] :: groups, ?_, ?_⟩
          · simp [dict_lines, hG, ok_bind, pure_eq_ok]
          · refine List.Forall₂.cons ⟨": " ++ format_value (.str t), [], ?_, ?_⟩ hF
            · simp [String.append_assoc]
            · exact Or.inl (by simp [String.data_append])

/-! ### Helper lemmas: one field's chunk group -/

/-- The chunk group one dict field contributes to `out_lines` (the body of
one iteration of the source's dict loop). -/
def field_group (k : String) (v : Value) (i : Nat) : Except PyError (List String) :=
  match v with
  | .obj g => do
      let sub ← dict_lines g (i + 2)
      pure [pad_str i ++ k ++ ":", join_sep "\n" sub]
  | .arr lst =>
      if lst.isEmpty then .ok [pad_str i ++ k ++ "[0]:"]
      else
        match all_dicts_with_same_keys lst with
        | (true, cols) => do
            let rows ← tabular_rows (pad_str i) cols lst
            pure ((pad_str i ++ k ++ "[" ++ toString lst.length ++ "]" ++
              "\x7b" ++ join_sep "," cols ++ "\x7d" ++ ":") :: rows)
        | (false, _) =>
            if lst.all is_primitive then
              .ok [pad_str i ++ k ++ "[" ++ toString lst.length ++ "]: " ++
                join_sep "," (lst.map format_value)]
            else do
              let body ← mixed_lines lst i
              pure ((pad_str i ++ k ++ "[" ++ toString lst.length ++ "]:") :: body)
  | prim => .ok [pad_str i ++ k ++ ": " ++ format_value prim]

theorem dict_lines_cons (k : String) (v : Value) (rest : List (String × Value)) (i : Nat) :
    dict_lines ((k, v) :: rest) i =
      (do
        let g ← field_group k v i
        let t ← dict_lines rest i
        pure (g ++ t)) := by
  cases v with
  | obj g =>
      cases hg : dict_lines g (i + 2) <;> cases hr : dict_lines rest i <;>
        simp [dict_lines, field_group, hg, hr, ok_bind, err_bind, pure_eq_ok]
  | arr lst =>
      cases hemp : lst.isEmpty
      · rcases all_dicts_shape lst with ⟨cols, hc⟩ | hc
        · cases ht : tabular_rows (pad_str i) cols lst <;> cases hr : dict_lines rest i <;>
            simp [dict_lines, field_group, hemp, hc, ht, hr, ok_bind, err_bind, pure_eq_ok]
        · cases hp : lst.all is_primitive
          · cases hm : mixed_lines lst i <;> cases hr : dict_lines rest i <;>
              simp [dict_lines, field_group, hemp, hc, hp, hm, hr, ok_bind, err_bind, pure_eq_ok]
          · cases hr : dict_lines rest i <;>
              simp [dict_lines, field_group, hemp, hc, hp, hr, ok_bind, err_bind, pure_eq_ok]
      · cases hr : dict_lines rest i <;>
          simp [dict_lines, field_group, hemp, hr, ok_bind, err_bind, pure_eq_ok]
  | null =>
      cases hr : dict_lines rest i <;>
        simp [dict_lines, field_group, hr, ok_bind, err_bind, pure_eq_ok]
  | bool b =>
      cases hr : dict_lines rest i <;>
        simp [dict_lines, field_group, hr, ok_bind, err_bind, pure_eq_ok]
  | num n =>
      cases hr : dict_lines rest i <;>
        simp [dict_lines, field_group, hr, ok_bind, err_bind, pure_eq_ok]
  | str t =>
      cases hr : dict_lines rest i <;>
        simp [dict_lines, field_group, hr, ok_bind, err_bind, pure_eq_ok]

theorem dict_lines_append (a b : List (String × Value)) (i : Nat) :
    dict_lines (a ++ b) i =
      (do
        let La ← dict_lines a i
        let Lb ← dict_lines b i
        pure (La ++ Lb)) := by
  induction a with
  | nil => cases h : dict_lines b i <;> simp [dict_lines, h, ok_bind, err_bind, pure_eq_ok]
  | cons kv rest ih =>
      obtain ⟨k, v⟩ := kv
      rw [List.cons_append, dict_lines_cons, dict_lines_cons]
      cases hg : field_group k v i <;> cases hr : dict_lines rest i <;>
        cases hb : dict_lines b i <;>
          simp [ih, hg, hr, hb, ok_bind, err_bind, pure_eq_ok]

/-! ### Claim theorems -/

/-- C1: applying `convert_json_to_toon` to the example JSON text
`{"users":[{"id":1,"name":"Alice"},{"id":2,"name":"Bob"}],"tags":["x","y"],"meta":{"count":2}}`
(equivalently, to the Value parsed from it) returns exactly the six lines
`users[2]{id,name}:`, `1,Alice`, `2,Bob`, `tags[2]: x,y`, `meta:`,
`  count: 2` (last line indented two spaces), joined by single newlines. -/
theorem c1_end_to_end :
    json_loads example_json = .ok example_value ∧
    convert_json_to_toon (.str example_json) = .ok (join_sep "\n" example_lines) ∧
    convert_json_to_toon example_value = .ok (join_sep "\n" example_lines) ∧
    join_sep "\n" example_lines =
      "users[2]\x7bid,name\x7d:\n1,Alice\n2,Bob\ntags[2]: x,y\nmeta:\n  count: 2" :=
  ⟨rfl, rfl, rfl, rfl⟩

/-- C9 (implicit): `json_to_toon` applied to an empty object with no name
at indent 0 returns the empty string — zero lines and no error. -/
theorem c9_empty_object :
    json_to_toon (.obj []) none 0 = .ok "" ∧ ("" : String).data = [] :=
  ⟨rfl, rfl⟩

/-- C5 counterexample: the claim says the output never ends with a newline
for any well-formed Value, including values containing empty objects as
nested children; but `{"a": {}}` encodes to `"a:\n"`, which does end with a
newline (the empty nested block joins as a trailing empty line). -/
theorem c5_counterexample :
    json_to_toon (.obj [("a", .obj [])]) none 0 = .ok "a:\n" ∧
    ends_with_newline "a:\n" = true :=
  ⟨rfl, rfl⟩

/-- C5 (amended): for every well-formed Value containing no empty object
anywhere in its tree, the encoder succeeds and the produced text does not
end with a newline character. -/
theorem c5_no_trailing_newline (v : Value) (name : Option String) (indent : Nat)
    (h : no_empty_obj v = true) :
    ∃ s, json_to_toon v name indent = .ok s ∧ ends_with_newline s = false := by
  obtain ⟨s, hs, hgood⟩ := encoder_good v name indent h
  refine ⟨s, hs, ?_⟩
  unfold ends_with_newline
  rw [beq_eq_false_iff_ne]
  exact hgood.2

/-- C5 witness: the amended theorem applied to the end-to-end example. -/
theorem c5_witness :
    no_empty_obj example_value = true ∧
    ∃ s, json_to_toon example_value none 0 = .ok s ∧ ends_with_newline s = false :=
  ⟨rfl, c5_no_trailing_newline example_value none 0 rfl⟩

/-- C6: the encoder is total — for every Value (arbitrarily nested) it
returns a string and never hits an error branch; in particular, whenever
schema detection succeeds, every per-row column lookup succeeds and the
tabular rows are produced. -/
theorem c6_encoder_total :
    (∀ (v : Value) (name : Option String) (indent : Nat),
        ∃ s, json_to_toon v name indent = .ok s) ∧
    (∀ (lst : List Value) (cols : List String) (pad : String),
        all_dicts_with_same_keys lst = (true, cols) →
          tabular_rows pad cols lst = .ok (lst.map (spec_row pad cols))) := by
  refine ⟨encoder_ok, ?_⟩
  intro lst cols pad h
  exact tabular_rows_ok pad cols lst ((all_dicts_true_iff lst cols).mp h).2

/-- C6 witness: totality at the example value, and tabular rows at a
concrete schema-detected list. -/
theorem c6_witness :
    (∃ s, json_to_toon example_value none 0 = .ok s) ∧
    all_dicts_with_same_keys [Value.obj [("id", Value.num 1)]] = (true, ["id"]) ∧
    tabular_rows "" ["id"] [Value.obj [("id", Value.num 1)]] =
      .ok ([Value.obj [("id", Value.num 1)]].map (spec_row "" ["id"])) :=
  ⟨c6_encoder_total.1 example_value none 0, rfl,
    c6_encoder_total.2 [Value.obj [("id", Value.num 1)]] ["id"] "" rfl⟩

/-- C10 (implicit): a string argument to `convert_json_to_toon` is always
routed through JSON parsing (never encoded directly as a string value), so
a plain non-JSON string such as `"hello"` raises a ParseError instead of
being emitted as a scalar. -/
theorem c10_strings_always_parsed :
    (∀ s : String, convert_json_to_toon (.str s) =
      (match json_loads s with
       | .error msg => .error (.parseError msg)
       | .ok parsed => json_to_toon parsed none 0)) ∧
    convert_json_to_toon (.str "hello") = .error (.parseError "expecting value") :=
  ⟨fun _ => rfl, rfl⟩

/-- C3: `needs_quote s` holds iff `s` is empty, or its first or last
character is whitespace, or it contains a comma, carriage return, line
feed, or double quote; when false, `format_value` returns the string
unchanged (so `:` and `\x7b` stay unquoted), and when true it returns the
string with embedded double quotes backslash-escaped and the whole wrapped
in double quotes. -/
theorem c3_quoting_rule (s : String) :
    (needs_quote s = true ↔
      (s = "" ∨
        (∃ c, s.data.head? = some c ∧ py_is_space c = true) ∨
        (∃ c, s.data.getLast? = some c ∧ py_is_space c = true) ∨
        ',' ∈ s.data ∨ '\r' ∈ s.data ∨ '\n' ∈ s.data ∨ '"' ∈ s.data)) ∧
    (needs_quote s = false → format_value (.str s) = s) ∧
    (needs_quote s = true → format_value (.str s) =
      "\"" ++ String.mk (s.data.flatMap (fun c => if c = '"' then ['\\', c] else [c])) ++ "\"") := by
  refine ⟨⟨?_, ?_⟩, ?_, ?_⟩
  · intro h
    unfold needs_quote at h
    split_ifs at h with h1 h2 h3
    · exact Or.inl ((string_eq_empty_iff s).mpr (by simpa using h1))
    · have hne : s.data ≠ [] := by simpa using h1
      have h2o : py_is_space (s.data.headD ' ') = true ∨
          py_is_space (s.data.getLastD ' ') = true := by
        simpa using h2
      rcases h2o with hh | hl
      · refine Or.inr (Or.inl ⟨s.data.headD ' ', ?_, hh⟩)
        cases hd : s.data with
        | nil => exact absurd hd hne
        | cons c t => simp [hd]
      · refine Or.inr (Or.inr (Or.inl ⟨s.data.getLastD ' ', ?_, hl⟩))
        rw [List.getLastD_eq_getLast?]
        obtain ⟨c, hc⟩ := Option.isSome_iff_exists.mp (List.getLast?_isSome.mpr hne)
        simp [hc]
    · have h3o : ',' ∈ s.data ∨ '\n' ∈ s.data ∨ '\r' ∈ s.data ∨ '"' ∈ s.data := by
        simpa [or_assoc] using h3
      rcases h3o with hm | hm | hm | hm
      · exact Or.inr (Or.inr (Or.inr (Or.inl hm)))
      · exact Or.inr (Or.inr (Or.inr (Or.inr (Or.inr (Or.inl hm)))))
      · exact Or.inr (Or.inr (Or.inr (Or.inr (Or.inl hm))))
      · exact Or.inr (Or.inr (Or.inr (Or.inr (Or.inr (Or.inr hm)))))
  · intro h
    unfold needs_quote
    split_ifs with h1 h2 h3
    · rfl
    · rfl
    · rfl
    · exfalso
      simp only [List.isEmpty_iff] at h1
      simp at h2 h3
      rcases h with h | ⟨c, hc, hsp⟩ | ⟨c, hc, hsp⟩ | h | h | h | h
      · exact h1 ((string_eq_empty_iff s).mp h)
      · have hf : py_is_space c = false := by simpa [hc] using h2.1
        exact absurd hsp (by simp [hf])
      · have hf : py_is_space c = false := by simpa [hc] using h2.2
        exact absurd hsp (by simp [hf])
      · exact h3.1.1.1 (by simpa using h)
      · exact h3.1.2 (by simpa using h)
      · exact h3.1.1.2 (by simpa using h)
      · exact h3.2 (by simpa using h)
  · intro h
    simp [format_value, h]
  · intro h
    simp [format_value, h, quote_str]

/-- C3 witness: a string with a colon and one with a brace stay unquoted;
a string with a comma and an embedded quote is escaped and wrapped. -/
theorem c3_witness :
    needs_quote "a:b" = false ∧ format_value (.str "a:b") = "a:b" ∧
    needs_quote "a\x7bb" = false ∧ format_value (.str "a\x7bb") = "a\x7bb" ∧
    needs_quote "a,\"b" = true ∧
    format_value (.str "a,\"b") =
      "\"" ++ String.mk ("a,\"b".data.flatMap
        (fun c => if c = '"' then ['\\', c] else [c])) ++ "\"" :=
  ⟨rfl, (c3_quoting_rule "a:b").2.1 rfl, rfl, (c3_quoting_rule "a\x7bb").2.1 rfl,
    rfl, (c3_quoting_rule "a,\"b").2.2 rfl⟩

/-- C2: for an object field holding a non-empty array of objects that all
share the identical ordered key sequence `cols`, the encoder emits exactly
one header line `KEY[N]{c1,...,cm}:` followed by exactly the N rows (each
element's column values rendered by `format_value` and comma-joined); and
if the elements are all dicts but any one's ordered keys differ from the
first element's, schema detection returns no schema and the whole array is
rendered by the non-tabular per-element path — never partially tabular. -/
theorem c2_tabular_exactness (k : String) (indent : Nat) (lst : List Value)
    (cols : List String) (pre post : List (String × Value)) (hne : lst ≠ []) :
    ((∀ el ∈ lst, obj_keys? el = some cols) →
      all_dicts_with_same_keys lst = (true, cols) ∧
      ∃ L1 L2, dict_lines pre indent = .ok L1 ∧ dict_lines post indent = .ok L2 ∧
        dict_lines (pre ++ (k, .arr lst) :: post) indent =
          .ok (L1 ++ ((pad_str indent ++ k ++ "[" ++ toString lst.length ++ "]" ++
            "\x7b" ++ join_sep "," cols ++ "\x7d" ++ ":") ::
            lst.map (spec_row (pad_str indent) cols)) ++ L2)) ∧
    ((∀ el ∈ lst, is_dict el = true) →
      (∃ el ∈ lst, dict_keys el ≠ dict_keys (lst.headD .null)) →
      all_dicts_with_same_keys lst = (false, []) ∧
      ∃ L1 L2 body, dict_lines pre indent = .ok L1 ∧ dict_lines post indent = .ok L2 ∧
        mixed_lines lst indent = .ok body ∧
        dict_lines (pre ++ (k, .arr lst) :: post) indent =
          .ok (L1 ++ ((pad_str indent ++ k ++ "[" ++ toString lst.length ++ "]:") ::
            body) ++ L2)) := by
  have hemp : lst.isEmpty = false := by
    cases lst with
    | nil => exact absurd rfl hne
    | cons x r => rfl
  constructor
  · intro hall
    have hc := (all_dicts_true_iff lst cols).mpr ⟨hne, hall⟩
    refine ⟨hc, ?_⟩
    obtain ⟨L1, h1⟩ := dict_lines_ok pre indent
    obtain ⟨L2, h2⟩ := dict_lines_ok post indent
    have hrows := tabular_rows_ok (pad_str indent) cols lst hall
    have hfg : field_group k (.arr lst) indent =
        .ok ((pad_str indent ++ k ++ "[" ++ toString lst.length ++ "]" ++
          "\x7b" ++ join_sep "," cols ++ "\x7d" ++ ":") ::
          lst.map (spec_row (pad_str indent) cols)) := by
      simp [field_group, hemp, hc, hrows, ok_bind, pure_eq_ok]
    refine ⟨L1, L2, h1, h2, ?_⟩
    rw [dict_lines_append, dict_lines_cons, h1, hfg, h2]
    simp [ok_bind, pure_eq_ok]
  · intro hd hmis
    have hfalse : all_dicts_with_same_keys lst = (false, []) := by
      rcases all_dicts_shape lst with ⟨cols2, hc⟩ | hc
      · exfalso
        obtain ⟨el, helm, helne⟩ := hmis
        have hall := ((all_dicts_true_iff lst cols2).mp hc).2
        have hk1 := dict_keys_of_obj_keys el cols2 (hall el helm)
        have hhead : lst.headD .null ∈ lst := by
          cases lst with
          | nil => exact absurd rfl hne
          | cons x r => simp
        have hk2 := dict_keys_of_obj_keys _ cols2 (hall _ hhead)
        exact helne (hk1.trans hk2.symm)
      · exact hc
    have hprim : lst.all is_primitive = false := by
      cases lst with
      | nil => exact absurd rfl hne
      | cons x r =>
          have hx := hd x (List.mem_cons_self x r)
          cases x <;> simp_all [is_dict, is_primitive]
    obtain ⟨body, hbody⟩ := mixed_lines_ok lst indent
    obtain ⟨L1, h1⟩ := dict_lines_ok pre indent
    obtain ⟨L2, h2⟩ := dict_lines_ok post indent
    have hfg : field_group k (.arr lst) indent =
        .ok ((pad_str indent ++ k ++ "[" ++ toString lst.length ++ "]:") :: body) := by
      simp [field_group, hemp, hfalse, hprim, hbody, ok_bind, pure_eq_ok]
    refine ⟨hfalse, L1, L2, body, h1, h2, hbody, ?_⟩
    rw [dict_lines_append, dict_lines_cons, h1, hfg, h2]
    simp [ok_bind, pure_eq_ok]

/-- C2 witness: the theorem applied to a uniform two-element array of
objects (tabular) and to a two-element array whose second object has a
different key (whole array falls back to the per-element path). -/
theorem c2_witness :
    (all_dicts_with_same_keys
        [Value.obj [("a", Value.num 1)], Value.obj [("a", Value.num 2)]] =
      (true, ["a"]) ∧
      ∃ L1 L2, dict_lines [] 0 = .ok L1 ∧ dict_lines [] 0 = .ok L2 ∧
        dict_lines ([] ++ ("k",
            Value.arr [Value.obj [("a", Value.num 1)], Value.obj [("a", Value.num 2)]]) :: []) 0 =
          .ok (L1 ++ ((pad_str 0 ++ "k" ++ "[" ++
            toString [Value.obj [("a", Value.num 1)], Value.obj [("a", Value.num 2)]].length ++
            "]" ++ "\x7b" ++ join_sep "," ["a"] ++ "\x7d" ++ ":") ::
            [Value.obj [("a", Value.num 1)], Value.obj [("a", Value.num 2)]].map
              (spec_row (pad_str 0) ["a"])) ++ L2)) ∧
    (all_dicts_with_same_keys
        [Value.obj [("a", Value.num 1)], Value.obj [("b", Value.num 2)]] =
      (false, []) ∧
      ∃ L1 L2 body, dict_lines [] 0 = .ok L1 ∧ dict_lines [] 0 = .ok L2 ∧
        mixed_lines [Value.obj [("a", Value.num 1)], Value.obj [("b", Value.num 2)]] 0 =
          .ok body ∧
        dict_lines ([] ++ ("k",
            Value.arr [Value.obj [("a", Value.num 1)], Value.obj [("b", Value.num 2)]]) :: []) 0 =
          .ok (L1 ++ ((pad_str 0 ++ "k" ++ "[" ++
            toString [Value.obj [("a", Value.num 1)], Value.obj [("b", Value.num 2)]].length ++
            "]:") :: body) ++ L2)) :=
  ⟨(c2_tabular_exactness "k" 0
      [Value.obj [("a", Value.num 1)], Value.obj [("a", Value.num 2)]] ["a"] [] []
      (List.cons_ne_nil _ _)).1 (by decide),
   (c2_tabular_exactness "k" 0
      [Value.obj [("a", Value.num 1)], Value.obj [("b", Value.num 2)]] ["a"] [] []
      (List.cons_ne_nil _ _)).2 (by decide) (by decide)⟩

/-- C7 counterexample: the original claim also asserts that, for a valid
JSON string, the result equals calling `convert_json_to_toon` on the
already-parsed Value directly; but `"\"a\""` is valid JSON parsing to the
String value `a`, and passing that parsed Value re-enters the parsing
branch and raises a ParseError instead. -/
theorem c7_counterexample :
    json_loads "\"a\"" = .ok (.str "a") ∧
    convert_json_to_toon (.str "\"a\"") = .ok "a" ∧
    convert_json_to_toon (.str "a") = .error (.parseError "expecting value") :=
  ⟨rfl, rfl, rfl⟩

/-- C7 (amended): a string argument is parsed as JSON and raises a
ParseError exactly when parsing fails; on success the result is the
encoding of the parsed Value (and equals calling `convert_json_to_toon` on
that Value directly, provided the parsed Value is not itself a String);
a non-string argument is never parsed and never raises. -/
theorem c7_parse_error_iff (s : String) :
    (∀ msg, json_loads s = .error msg →
        convert_json_to_toon (.str s) = .error (.parseError msg)) ∧
    (∀ v, json_loads s = .ok v →
        convert_json_to_toon (.str s) = json_to_toon v none 0 ∧
        ∃ out, convert_json_to_toon (.str s) = .ok out) ∧
    (∀ v, json_loads s = .ok v → (∀ t, v ≠ .str t) →
        convert_json_to_toon (.str s) = convert_json_to_toon v) ∧
    (∀ v : Value, (∀ t, v ≠ .str t) → ∃ out, convert_json_to_toon v = .ok out) := by
  refine ⟨?_, ?_, ?_, ?_⟩
  · intro msg h
    simp [convert_json_to_toon, h]
  · intro v h
    constructor
    · simp [convert_json_to_toon, h]
    · obtain ⟨out, hout⟩ := encoder_ok v none 0
      exact ⟨out, by simp [convert_json_to_toon, h, hout]⟩
  · intro v h hv
    cases v with
    | str t => exact absurd rfl (hv t)
    | null => simp [convert_json_to_toon, h]
    | bool b => simp [convert_json_to_toon, h]
    | num n => simp [convert_json_to_toon, h]
    | obj fields => simp [convert_json_to_toon, h]
    | arr elems => simp [convert_json_to_toon, h]
  · intro v hv
    cases v with
    | str t => exact absurd rfl (hv t)
    | null => exact encoder_ok .null none 0
    | bool b => exact encoder_ok (.bool b) none 0
    | num n => exact encoder_ok (.num n) none 0
    | obj fields => exact encoder_ok (.obj fields) none 0
    | arr elems => exact encoder_ok (.arr elems) none 0

/-- C7 witness: the amended theorem applied to the valid document `[1]`
(non-string parsed Value, so the direct call agrees) and to the invalid
document `x`. -/
theorem c7_witness :
    convert_json_to_toon (.str "[1]") = convert_json_to_toon (.arr [.num 1]) ∧
    (∃ out, convert_json_to_toon (.arr [.num 1]) = .ok out) ∧
    convert_json_to_toon (.str "x") = .error (.parseError "expecting value") :=
  ⟨(c7_parse_error_iff "[1]").2.2.1 (.arr [.num 1]) rfl
      (fun _ h => Value.noConfusion h),
    (c7_parse_error_iff "[1]").2.2.2 (.arr [.num 1]) (fun _ h => Value.noConfusion h),
    (c7_parse_error_iff "x").1 "expecting value" rfl⟩

/-- C4: for every object, the emitted chunk groups are in order-preserving
one-to-one correspondence with the object's fields (so keys are never
reordered, dropped, or duplicated), and each group's first line is the
field's key behind the padding, continued by `:` or `[`. -/
theorem c4_key_order (fields : List (String × Value)) (indent : Nat) :
    ∃ groups : List (List String),
      dict_lines fields indent = .ok groups.flatten ∧
      json_to_toon (.obj fields) none indent = .ok (join_sep "\n" groups.flatten) ∧
      List.Forall₂ (fun kv grp => ∃ r t, grp = (pad_str indent ++ kv.1 ++ r) :: t ∧
        (r.data.headD ' ' = ':' ∨ r.data.headD ' ' = '[')) fields groups := by
  obtain ⟨groups, hG, hF⟩ := dict_lines_groups fields indent
  exact ⟨groups, hG, by simp [json_to_toon_obj_eq, hG, Except.map], hF⟩

theorem dict_lines_single_tabular (k : String) (indent : Nat) (lst : List Value)
    (cols : List String) (hne : lst ≠ []) (hall : ∀ el ∈ lst, obj_keys? el = some cols) :
    dict_lines [(k, .arr lst)] indent =
      .ok ((pad_str indent ++ k ++ "[" ++ toString lst.length ++ "]" ++
        "\x7b" ++ join_sep "," cols ++ "\x7d" ++ ":") ::
        lst.map (spec_row (pad_str indent) cols)) := by
  have hemp : lst.isEmpty = false := by
    cases lst with
    | nil => exact absurd rfl hne
    | cons x r => rfl
  have hc := (all_dicts_true_iff lst cols).mpr ⟨hne, hall⟩
  have hrows := tabular_rows_ok (pad_str indent) cols lst hall
  simp [dict_lines, hemp, hc, hrows, ok_bind, pure_eq_ok]

/-- C8: `format_value` renders a non-primitive tabular cell as the compact
JSON text of the value (no spaces after separators), wrapped in double
quotes with embedded double quotes backslash-escaped; and schema detection
looks at keys alone, so such cells leave the array's tabular rendering
intact (header plus one row per element). -/
theorem c8_cell_fallback (v : Value) (lst : List Value) (cols : List String)
    (k : String) (indent : Nat) :
    (is_primitive v = false →
      format_value v = quote_str (json_dumps v) ∧
      format_value v = "\"" ++ String.mk ((json_dumps v).data.flatMap
        (fun c => if c = '"' then ['\\', c] else [c])) ++ "\"") ∧
    (lst ≠ [] → (∀ el ∈ lst, obj_keys? el = some cols) →
      all_dicts_with_same_keys lst = (true, cols) ∧
      dict_lines [(k, .arr lst)] indent =
        .ok ((pad_str indent ++ k ++ "[" ++ toString lst.length ++ "]" ++
          "\x7b" ++ join_sep "," cols ++ "\x7d" ++ ":") ::
          lst.map (spec_row (pad_str indent) cols))) := by
  constructor
  · intro hv
    cases v with
    | null => simp [is_primitive] at hv
    | bool b => simp [is_primitive] at hv
    | num n => simp [is_primitive] at hv
    | str t => simp [is_primitive] at hv
    | obj fields => exact ⟨rfl, rfl⟩
    | arr elems => exact ⟨rfl, rfl⟩
  · intro hne hall
    have hc := (all_dicts_true_iff lst cols).mpr ⟨hne, hall⟩
    exact ⟨hc, dict_lines_single_tabular k indent lst cols hne hall⟩

/-- C8 witness: a tabular array whose cells hold a nested object and a
nested array still renders as one header plus two rows, the nested cells
quoted as compact JSON. -/
theorem c8_witness :
    (format_value (.obj [("x", .num 1)]) = quote_str (json_dumps (.obj [("x", .num 1)])) ∧
      format_value (.obj [("x", .num 1)]) =
        "\"" ++ String.mk ((json_dumps (.obj [("x", .num 1)])).data.flatMap
          (fun c => if c = '"' then ['\\', c] else [c])) ++ "\"") ∧
    all_dicts_with_same_keys
        [Value.obj [("a", Value.num 1), ("b", Value.obj [("x", Value.num 1)])],
         Value.obj [("a", Value.num 2), ("b", Value.arr [Value.num 1, Value.num 2])]] =
      (true, ["a", "b"]) ∧
    json_to_toon (.obj [("k", .arr
        [Value.obj [("a", Value.num 1), ("b", Value.obj [("x", Value.num 1)])],
         Value.obj [("a", Value.num 2), ("b", Value.arr [Value.num 1, Value.num 2])]])])
      none 0 =
      .ok "k[2]\x7ba,b\x7d:\n1,\"\x7b\\\"x\\\":1\x7d\"\n2,\"[1,2]\"" :=
  ⟨(c8_cell_fallback (.obj [("x", .num 1)]) [] [] "" 0).1 rfl,
    ((c8_cell_fallback .null
        [Value.obj [("a", Value.num 1), ("b", Value.obj [("x", Value.num 1)])],
         Value.obj [("a", Value.num 2), ("b", Value.arr [Value.num 1, Value.num 2])]]
        ["a", "b"] "k" 0).2 (List.cons_ne_nil _ _) (by decide)).1,
    rfl⟩

end Toon
